import Mathlib

/-!
Verification of the flash-cards quiz runner (src/src/main.rs) against its
natural-language specification.  The Rust source is shallowly embedded:
pure functions become Lean functions, the `rand` shuffle becomes a
Fisher-Yates permutation driven by an injected choice function, stdin is
an explicit list of input lines, and a Rust `panic!` (or an input stream
that never yields a valid line) is modelled by `Option`/`none`.
-/

namespace FlashCards

/-- Embeds the Rust `enum Answer { CorrectAnswer(String), IncorrectAnswer(String) }`. -/
inductive Answer where
  | CorrectAnswer : String → Answer
  | IncorrectAnswer : String → Answer
deriving DecidableEq, Repr

/-- Embeds `Answer::as_str`. -/
def Answer.as_str : Answer → String
  | .CorrectAnswer s => s
  | .IncorrectAnswer s => s

/-- Embeds the Rust pattern `matches!(a, Answer::CorrectAnswer(_))`
used in `get_correct_answer_index`. -/
def Answer.correctTag : Answer → Bool
  | .CorrectAnswer _ => true
  | .IncorrectAnswer _ => false

/-- Embeds `struct Question { question: String, answers: Vec<Answer> }`. -/
structure Question where
  question : String
  answers : List Answer
deriving DecidableEq, Repr

/-- Embeds `struct Quiz { questions: Vec<Question> }`. -/
structure Quiz where
  questions : List Question
deriving DecidableEq, Repr

/-- Embeds `struct Results { correct: usize, incorrect: usize }`. -/
structure Results where
  correct : Nat
  incorrect : Nat
deriving DecidableEq, Repr

/-- Embeds `enum QuizParseError { FileNotFound(String), ParseError(String) }`
(the only error variants the program defines). -/
inductive QuizParseError where
  | FileNotFound : String → QuizParseError
  | ParseError : String → QuizParseError
deriving DecidableEq, Repr

/-- Embeds `struct JsonQuestion { question: String, answer: usize, options: Vec<String> }`. -/
structure JsonQuestion where
  question : String
  answer : Nat
  options : List String
deriving DecidableEq, Repr

/-- Embeds `struct JsonQuiz { questions: Vec<JsonQuestion> }`. -/
structure JsonQuiz where
  questions : List JsonQuestion
deriving DecidableEq, Repr

/-- Embeds `get_correct_answer_index`:
`answers.iter().position(|a| matches!(a, Answer::CorrectAnswer(_)))`.
The Rust `unwrap_or_else(|| panic!("Correct answer not found"))` is modelled
by `none` (the panic aborts the process and no index is ever produced). -/
def get_correct_answer_index (answers : List Answer) : Option Nat :=
  answers.findIdx? Answer.correctTag

/-- Embeds `Vec::swap(i, j)` as used by the `rand` shuffle.  In every use the
indices are in bounds; the out-of-bounds fallback (a Rust panic) is modelled
by returning the list unchanged, which no theorem below relies on. -/
def list_swap (l : List α) (i j : Nat) : List α :=
  match l[i]?, l[j]? with
  | some a, some b => (l.set i b).set j a
  | _, _ => l

/-- Embeds the Fisher-Yates loop of `rand`'s `SliceRandom::shuffle`
(`for i in (1..len).rev() { swap(i, gen_range(0..=i)) }`), with the random
generator injected as a choice function `r`; the value drawn at step `i`
is `r i % (i + 1)`, which ranges over `[0, i]`. -/
def shuffleSteps (r : Nat → Nat) : Nat → List α → List α
  | 0, l => l
  | i + 1, l => shuffleSteps r i (list_swap l (i + 1) (r (i + 1) % (i + 1 + 1)))

/-- Embeds `slice.shuffle(&mut rng)`: run the Fisher-Yates swaps from index
`len - 1` down to `1`. -/
def shuffle (r : Nat → Nat) (l : List α) : List α :=
  shuffleSteps r (l.length - 1) l

/-- Embeds the per-option closure inside `Quiz::try_from`:
`|(index, option)| if index + 1 == json_question.answer { CorrectAnswer(option) }
else { IncorrectAnswer(option) }`. -/
def tag_option (answer : Nat) (p : Nat × String) : Answer :=
  if p.1 + 1 = answer then Answer.CorrectAnswer p.2 else Answer.IncorrectAnswer p.2

/-- Embeds the answers list `Quiz::try_from` builds for one record:
`json_question.options.iter().enumerate().map(...)`. -/
def make_answers (answer : Nat) (options : List String) : List Answer :=
  options.enum.map (tag_option answer)

/-- Embeds the per-record mapping inside `Quiz::try_from`. -/
def Question.from_json (json_question : JsonQuestion) : Question :=
  { question := json_question.question,
    answers := make_answers json_question.answer json_question.options }

/-- Embeds the construction half of `Quiz::try_from` — everything after
`File::open` and `serde_json::from_reader` have produced a `JsonQuiz`.
The `Err` variants of `try_from` arise only from file reading and JSON
decoding, which happen before this point; the construction itself is
infallible in the source (`Ok(Quiz { .. })` with no further check). -/
def Quiz.try_from (json_quiz : JsonQuiz) : Except QuizParseError Quiz :=
  Except.ok { questions := json_quiz.questions.map Question.from_json }

/-- Models Rust `str::trim`: drop leading and trailing whitespace.  (Written
on the character list so it evaluates by kernel reduction; `String.trim`
itself is implemented with byte positions and does not.) -/
def trim_ascii (s : String) : String :=
  ⟨((s.data.dropWhile Char.isWhitespace).reverse.dropWhile Char.isWhitespace).reverse⟩

/-- The digit-folding loop of Rust `usize::from_str`: consume decimal digits
into an accumulator, failing on any non-digit character. -/
def parse_usize_digits (acc : Nat) : List Char → Option Nat
  | [] => some acc
  | c :: cs =>
    if c.isDigit then parse_usize_digits (acc * 10 + (c.toNat - 48)) cs else none

/-- Models Rust `str::parse::<usize>`: an optional leading plus sign followed
by one or more decimal digits.  (Numbers large enough to overflow `usize`
are rejected by Rust's parser; they are equally out of range for the
`[1, answers.len()]` guard, so observable behavior in
`get_user_answer_index` is unchanged by modelling them as parsed.) -/
def parse_usize (s : String) : Option Nat :=
  match s.data with
  | [] => none
  | '+' :: rest => if rest = [] then none else parse_usize_digits 0 rest
  | chars => parse_usize_digits 0 chars

/-- The acceptance guard of `get_user_answer_index`:
`Ok(index) if index > 0 && index <= answers.len()`. -/
def valid_input (n : Nat) (line : String) : Bool :=
  match parse_usize (trim_ascii line) with
  | some index => decide (index > 0 ∧ index ≤ n)
  | none => false

/-- Embeds `get_user_answer_index`.  Stdin is an explicit list of input
lines.  The result pairs the number of rejected lines (each printing
"Invalid answer") with the returned zero-based index; an input stream
exhausted before a valid line models the loop blocking forever (`none`). -/
def get_user_answer_index (answers : List Answer) : List String → Option (Nat × Nat)
  | [] => none
  | line :: rest =>
    match parse_usize (trim_ascii line) with
    | some index =>
      if index > 0 ∧ index ≤ answers.length then some (0, index - 1)
      else (get_user_answer_index answers rest).map (fun p => (p.1 + 1, p.2))
    | none => (get_user_answer_index answers rest).map (fun p => (p.1 + 1, p.2))

/-- Embeds `display_results`, with `format!("{}% correct ({} of {})", ..)`
written as the string concatenation it performs. -/
def display_results (results : Results) : String :=
  let total := results.correct + results.incorrect
  let percent :=
    match total with
    | 0 => 0
    | _ => 100 * results.correct / total
  toString percent ++ "% correct (" ++ toString results.correct ++ " of " ++
    toString total ++ ")"

/-- Embeds `get_file_name_from_args`: `args.get(1)` with an error message
when absent.  As with `env::args`, position 0 is the program name. -/
def get_file_name_from_args (args : List String) : Except String String :=
  match args[1]? with
  | some s => Except.ok s
  | none => Except.error ("Error: Please input one parameter for json filename")

/-- One iteration of `main`'s question loop, with the answer-shuffle
randomness `r` and the stdin lines injected: shuffle a copy of the answers,
resolve the correct index (a panic is `none`), read a valid user answer
(`none` if the stream never yields one), then update `results` and produce
the feedback line. -/
def process_question (results : Results) (r : Nat → Nat) (inputs : List String)
    (q : Question) : Option (Results × String) :=
  let answers := shuffle r q.answers
  match get_correct_answer_index answers with
  | none => none
  | some correct_answer_index =>
    match get_user_answer_index answers inputs with
    | none => none
    | some (_, user_index) =>
      if user_index = correct_answer_index then
        some ({ results with correct := results.correct + 1 }, "Correct!")
      else
        some ({ results with incorrect := results.incorrect + 1 },
          "Incorrect! Correct answer was #" ++ toString (correct_answer_index + 1))

/-- Embeds `main`'s loop over the (already shuffled) question list, threading
`results`; each question carries its own answer-shuffle choices and input
lines. -/
def run_session (results : Results) :
    List (Question × (Nat → Nat) × List String) → Option Results
  | [] => some results
  | (q, r, inputs) :: rest =>
    match process_question results r inputs q with
    | none => none
    | some (results2, _) => run_session results2 rest

end FlashCards

namespace FlashCards

/-- Replacing the element at a known position by `x` and putting the old
element `b` in front is a permutation of putting `x` in front. -/
theorem cons_set_perm (x b : α) : ∀ (xs : List α) (m : Nat), xs[m]? = some b →
    List.Perm (b :: xs.set m x) (x :: xs)
  | [], m, h => by simp at h
  | y :: ys, 0, h => by
    obtain rfl : y = b := by simpa using h
    simpa using List.Perm.swap x y ys
  | y :: ys, m + 1, h => by
    have hm : ys[m]? = some b := by simpa using h
    have h1 : List.Perm (b :: y :: ys.set m x) (y :: b :: ys.set m x) :=
      List.Perm.swap y b _
    have h2 : List.Perm (y :: b :: ys.set m x) (y :: x :: ys) :=
      (cons_set_perm x b ys m hm).cons y
    have h3 : List.Perm (y :: x :: ys) (x :: y :: ys) := List.Perm.swap x y ys
    simpa using (h1.trans h2).trans h3

/-- Swapping two in-bounds positions by a pair of `set`s is a permutation. -/
theorem set_set_swap_perm : ∀ (l : List α) (i j : Nat) (a b : α),
    l[i]? = some a → l[j]? = some b → List.Perm ((l.set i b).set j a) l
  | [], i, j, a, b, ha, hb => by simp at ha
  | x :: xs, 0, 0, a, b, ha, hb => by
    obtain rfl : x = a := by simpa using ha
    simp
  | x :: xs, 0, m + 1, a, b, ha, hb => by
    obtain rfl : x = a := by simpa using ha
    have hm : xs[m]? = some b := by simpa using hb
    simpa using cons_set_perm x b xs m hm
  | x :: xs, k + 1, 0, a, b, ha, hb => by
    obtain rfl : x = b := by simpa using hb
    have hk : xs[k]? = some a := by simpa using ha
    simpa using cons_set_perm x a xs k hk
  | x :: xs, k + 1, m + 1, a, b, ha, hb => by
    have hk : xs[k]? = some a := by simpa using ha
    have hm : xs[m]? = some b := by simpa using hb
    simpa using (set_set_swap_perm xs k m a b hk hm).cons x

/-- `list_swap` is a permutation. -/
theorem list_swap_perm (l : List α) (i j : Nat) : List.Perm (list_swap l i j) l := by
  unfold list_swap
  cases ha : l[i]? with
  | none => simp
  | some a =>
    cases hb : l[j]? with
    | none => simp
    | some b => simpa using set_set_swap_perm l i j a b ha hb

/-- Every run of the Fisher-Yates loop is a permutation. -/
theorem shuffleSteps_perm (r : Nat → Nat) : ∀ (n : Nat) (l : List α),
    List.Perm (shuffleSteps r n l) l
  | 0, l => List.Perm.refl l
  | n + 1, l =>
    (shuffleSteps_perm r n _).trans (list_swap_perm l (n + 1) (r (n + 1) % (n + 1 + 1)))

/-- `shuffle` produces a permutation of its input for every choice function. -/
theorem shuffle_perm (r : Nat → Nat) (l : List α) : List.Perm (shuffle r l) l :=
  shuffleSteps_perm r (l.length - 1) l

/-- If at least one answer is correct-tagged, `get_correct_answer_index`
returns an index holding a correct-tagged answer. -/
theorem get_correct_some_of_exists {answers : List Answer}
    (h : ∃ a ∈ answers, a.correctTag = true) :
    ∃ i, get_correct_answer_index answers = some i ∧
      ∃ a, answers[i]? = some a ∧ a.correctTag = true := by
  obtain ⟨a, ha, hc⟩ := h
  have hfind := List.findIdx?_eq_some_of_exists (p := Answer.correctTag) ⟨a, ha, hc⟩
  refine ⟨answers.findIdx Answer.correctTag, hfind, ?_⟩
  rw [List.findIdx?_eq_some_iff_getElem] at hfind
  obtain ⟨hlt, hp, -⟩ := hfind
  exact ⟨answers[answers.findIdx Answer.correctTag], List.getElem?_eq_getElem hlt, hp⟩

/-- In a list with exactly one correct-tagged element, any two correct-tagged
members coincide. -/
theorem correct_unique {l : List Answer} (h1 : l.countP Answer.correctTag = 1)
    {a b : Answer} (ha : a ∈ l) (hpa : a.correctTag = true)
    (hb : b ∈ l) (hpb : b.correctTag = true) : a = b := by
  have hfa : a ∈ l.filter Answer.correctTag := List.mem_filter.mpr ⟨ha, hpa⟩
  have hfb : b ∈ l.filter Answer.correctTag := List.mem_filter.mpr ⟨hb, hpb⟩
  rw [List.countP_eq_length_filter] at h1
  obtain ⟨x, hx⟩ := List.length_eq_one.mp h1
  rw [hx, List.mem_singleton] at hfa hfb
  rw [hfa, hfb]

/-- C3: with at least one correct-tagged answer, `get_correct_answer_index`
returns a zero-based index holding a correct-tagged `Answer`; with none, it
panics (modelled `none`) and never returns a default index. -/
theorem get_correct_answer_index_spec (answers : List Answer) :
    ((∃ a ∈ answers, a.correctTag = true) →
      ∃ i, get_correct_answer_index answers = some i ∧
        ∃ a, answers[i]? = some a ∧ a.correctTag = true) ∧
    ((∀ a ∈ answers, a.correctTag = false) →
      get_correct_answer_index answers = none) := by
  constructor
  · exact fun h => get_correct_some_of_exists h
  · intro h
    exact List.findIdx?_eq_none_iff.mpr h

/-- Witness for C3 at a concrete input. -/
theorem get_correct_answer_index_spec_witness :
    ∃ i, get_correct_answer_index
        [Answer.IncorrectAnswer ("b"), Answer.CorrectAnswer ("a")] = some i ∧
      ∃ a, [Answer.IncorrectAnswer ("b"), Answer.CorrectAnswer ("a")][i]? = some a ∧
        a.correctTag = true :=
  (get_correct_answer_index_spec
    [Answer.IncorrectAnswer ("b"), Answer.CorrectAnswer ("a")]).1
    ⟨Answer.CorrectAnswer ("a"), by decide, by decide⟩

/-- C6: for every random seed, shuffling the question sequence and shuffling
an answer sequence each preserve the multiset of elements (same texts and
tags); only the order may differ and no tag is mutated. -/
theorem shuffle_preserves_multiset (r s : Nat → Nat)
    (questions : List Question) (answers : List Answer) :
    (↑(shuffle r questions) : Multiset Question) = ↑questions ∧
    (↑(shuffle s answers) : Multiset Answer) = ↑answers :=
  ⟨Multiset.coe_eq_coe.mpr (shuffle_perm r questions),
   Multiset.coe_eq_coe.mpr (shuffle_perm s answers)⟩

/-- C1: when exactly one answer is tagged correct, after any shuffle
`get_correct_answer_index` returns the position of the `Answer` whose text is
the one originally marked correct, even with duplicate texts elsewhere. -/
theorem correctness_tag_stability (r : Nat → Nat) (answers : List Answer)
    (t : String) (h1 : answers.countP Answer.correctTag = 1)
    (h2 : Answer.CorrectAnswer t ∈ answers) :
    ∃ i, get_correct_answer_index (shuffle r answers) = some i ∧
      (shuffle r answers)[i]? = some (Answer.CorrectAnswer t) := by
  have hperm := shuffle_perm r answers
  have hmem : Answer.CorrectAnswer t ∈ shuffle r answers := hperm.mem_iff.mpr h2
  have hcnt : (shuffle r answers).countP Answer.correctTag = 1 := by
    rw [hperm.countP_eq]
    exact h1
  obtain ⟨i, hfind, a, hget, hpa⟩ :=
    get_correct_some_of_exists ⟨Answer.CorrectAnswer t, hmem, rfl⟩
  have hamem : a ∈ shuffle r answers := by
    have hlt := List.getElem?_eq_some.mp hget
    obtain ⟨hl, hgetl⟩ := hlt
    rw [← hgetl]
    exact List.getElem_mem hl
  have : a = Answer.CorrectAnswer t := correct_unique hcnt hamem hpa hmem rfl
  exact ⟨i, hfind, by rw [← this]; exact hget⟩

/-- Witness for C1 at a concrete input with a duplicate text. -/
theorem correctness_tag_stability_witness :
    ∃ i, get_correct_answer_index
        (shuffle (fun _ => 0) [Answer.CorrectAnswer ("a"), Answer.IncorrectAnswer ("a")])
        = some i ∧
      (shuffle (fun _ => 0) [Answer.CorrectAnswer ("a"), Answer.IncorrectAnswer ("a")])[i]?
        = some (Answer.CorrectAnswer ("a")) :=
  correctness_tag_stability (fun _ => 0)
    [Answer.CorrectAnswer ("a"), Answer.IncorrectAnswer ("a")] ("a")
    (by decide) (by decide)

/-- Lookup in the answers list built for one record: position `i` holds the
`i`-th option text, tagged by whether `i + 1` is the declared answer. -/
theorem make_answers_getElem? (answer : Nat) (options : List String) (i : Nat) :
    (make_answers answer options)[i]? =
      (options[i]?).map (fun s => tag_option answer (i, s)) := by
  simp only [make_answers, List.enum_eq_enumFrom, List.getElem?_map,
    List.getElem?_enumFrom]
  cases options[i]? <;> simp

/-- The tag produced for an enumerated option is correct exactly when its
1-based position is the declared answer. -/
theorem correctTag_tag_option (answer : Nat) (p : Nat × String) :
    (tag_option answer p).correctTag = decide (p.1 + 1 = answer) := by
  by_cases h : p.1 + 1 = answer <;> simp [tag_option, h, Answer.correctTag]

/-- Number of correct-tagged answers produced for one record, as a function
of the declared 1-based answer position (stated for an arbitrary enumeration
start so it can be proved by induction). -/
theorem countP_tag_enumFrom (answer : Nat) : ∀ (options : List String) (k : Nat),
    ((options.enumFrom k).map (tag_option answer)).countP Answer.correctTag =
      if k + 1 ≤ answer ∧ answer ≤ k + options.length then 1 else 0
  | [], k => by
    simp only [List.enumFrom_nil, List.map_nil, List.countP_nil, List.length_nil]
    split_ifs <;> omega
  | o :: os, k => by
    have ih := countP_tag_enumFrom answer os (k + 1)
    simp only [List.enumFrom_cons, List.map_cons, List.countP_cons, ih,
      correctTag_tag_option, List.length_cons, decide_eq_true_eq]
    split_ifs <;> omega

/-- Correct-tag count of a built answers list. -/
theorem make_answers_countP (answer : Nat) (options : List String) :
    (make_answers answer options).countP Answer.correctTag =
      if 1 ≤ answer ∧ answer ≤ options.length then 1 else 0 := by
  have h := countP_tag_enumFrom answer options 0
  simp only [Nat.zero_add] at h
  simpa only [make_answers, List.enum_eq_enumFrom] using h

/-- A built answers list has one answer per option. -/
theorem make_answers_length (answer : Nat) (options : List String) :
    (make_answers answer options).length = options.length := by
  simp [make_answers, List.enum_eq_enumFrom]

/-- C4: a record whose 1-based correct-option identifier is within the bounds
of its options yields a `Question` with the same option texts in the same
order, exactly the declared position tagged correct, all others incorrect. -/
theorem quiz_construction_in_range (json_quiz : JsonQuiz) (i : Nat)
    (jq : JsonQuestion) (hget : json_quiz.questions[i]? = some jq)
    (h1 : 1 ≤ jq.answer) (h2 : jq.answer ≤ jq.options.length) :
    ∃ quiz, Quiz.try_from json_quiz = Except.ok quiz ∧
      ∃ q, quiz.questions[i]? = some q ∧
        q.question = jq.question ∧
        q.answers.length = jq.options.length ∧
        (∀ j (s : String), jq.options[j]? = some s →
          q.answers[j]? = some (if j + 1 = jq.answer then Answer.CorrectAnswer s
            else Answer.IncorrectAnswer s)) ∧
        q.answers.countP Answer.correctTag = 1 := by
  refine ⟨{ questions := json_quiz.questions.map Question.from_json }, rfl,
    Question.from_json jq, ?_, rfl, ?_, ?_, ?_⟩
  · simp [List.getElem?_map, hget]
  · simpa [Question.from_json] using make_answers_length jq.answer jq.options
  · intro j s hs
    have := make_answers_getElem? jq.answer jq.options j
    rw [hs] at this
    simpa [Question.from_json, tag_option] using this
  · have := make_answers_countP jq.answer jq.options
    rw [if_pos ⟨h1, h2⟩] at this
    simpa [Question.from_json] using this

/-- Witness for C4 at a concrete two-option record. -/
theorem quiz_construction_in_range_witness :
    ∃ quiz, Quiz.try_from ⟨[⟨"q", 2, ["x", "y"]⟩]⟩ = Except.ok quiz ∧
      ∃ q, quiz.questions[0]? = some q ∧
        q.question = "q" ∧
        q.answers.length = (["x", "y"] : List String).length ∧
        (∀ j (s : String), (["x", "y"] : List String)[j]? = some s →
          q.answers[j]? = some (if j + 1 = 2 then Answer.CorrectAnswer s
            else Answer.IncorrectAnswer s)) ∧
        q.answers.countP Answer.correctTag = 1 :=
  quiz_construction_in_range ⟨[⟨"q", 2, ["x", "y"]⟩]⟩ 0 ⟨"q", 2, ["x", "y"]⟩
    rfl (by decide) (by decide)

/-- C2 counterexample: a record with correct-option identifier `0` is not
rejected — `Quiz::try_from` succeeds and builds a `Question` (with its only
answer tagged incorrect); no `MalformedQuestion` error exists in the code. -/
theorem malformed_question_not_rejected :
    Quiz.try_from ⟨[⟨"q", 0, ["a"]⟩]⟩ =
      Except.ok ⟨[⟨"q", [Answer.IncorrectAnswer ("a")]⟩]⟩ := rfl

/-- C2 amended: construction performs no validation — a record whose
correct-option identifier is `0` or exceeds `options.length` (which subsumes
every record with an empty options list) is silently built into a `Question`
all of whose answers are tagged incorrect, and `Quiz::try_from` still
succeeds; the failure only surfaces later as `get_correct_answer_index`'s
panic. -/
theorem malformed_question_silently_built (json_quiz : JsonQuiz) (i : Nat)
    (jq : JsonQuestion) (hget : json_quiz.questions[i]? = some jq)
    (h : jq.answer = 0 ∨ jq.options.length < jq.answer) :
    ∃ quiz, Quiz.try_from json_quiz = Except.ok quiz ∧
      ∃ q, quiz.questions[i]? = some q ∧
        q.answers.length = jq.options.length ∧
        (∀ a ∈ q.answers, a.correctTag = false) ∧
        get_correct_answer_index q.answers = none := by
  refine ⟨{ questions := json_quiz.questions.map Question.from_json }, rfl,
    Question.from_json jq, ?_, ?_, ?_, ?_⟩
  · simp [List.getElem?_map, hget]
  · simpa [Question.from_json] using make_answers_length jq.answer jq.options
  · have hcnt : (make_answers jq.answer jq.options).countP Answer.correctTag = 0 := by
      rw [make_answers_countP, if_neg]
      omega
    intro a ha
    have hmem : a ∈ make_answers jq.answer jq.options := by
      simpa [Question.from_json] using ha
    have := List.countP_eq_zero.mp hcnt a hmem
    simpa using this
  · apply List.findIdx?_eq_none_iff.mpr
    intro a ha
    have hcnt : (make_answers jq.answer jq.options).countP Answer.correctTag = 0 := by
      rw [make_answers_countP, if_neg]
      omega
    have hmem : a ∈ make_answers jq.answer jq.options := by
      simpa [Question.from_json] using ha
    have := List.countP_eq_zero.mp hcnt a hmem
    simpa using this

/-- Witness for the amended C2 at a concrete malformed record. -/
theorem malformed_question_silently_built_witness :
    ∃ quiz, Quiz.try_from ⟨[⟨"q", 0, ["a"]⟩]⟩ = Except.ok quiz ∧
      ∃ q, quiz.questions[0]? = some q ∧
        q.answers.length = (["a"] : List String).length ∧
        (∀ a ∈ q.answers, a.correctTag = false) ∧
        get_correct_answer_index q.answers = none :=
  malformed_question_silently_built ⟨[⟨"q", 0, ["a"]⟩]⟩ 0 ⟨"q", 0, ["a"]⟩
    rfl (Or.inl rfl)

/-- C5: `display_results` renders the truncated percentage (0 when no
questions were answered), the correct count and the total; one correct of
three yields "33% correct (1 of 3)" (truncation, not rounding). -/
theorem display_results_spec (results : Results) :
    display_results results =
      (if results.correct + results.incorrect = 0 then toString 0
        else toString (100 * results.correct / (results.correct + results.incorrect))) ++
      "% correct (" ++ toString results.correct ++ " of " ++
      toString (results.correct + results.incorrect) ++ ")" ∧
    display_results { correct := 1, incorrect := 2 } = "33% correct (1 of 3)" := by
  constructor
  · simp only [display_results]
    rcases h : results.correct + results.incorrect with _ | n
    · simp [h]
    · simp [h]
  · rfl

/-- C7: every line failing the parse-and-range guard is rejected (one
invalid-answer feedback each, no bound on retries), and the first line that
parses as an integer in `[1, answers.length]` returns `input - 1`. -/
theorem retry_on_invalid_input (answers : List Answer) (bad rest : List String)
    (good : String) (m : Nat)
    (hbad : ∀ s ∈ bad, valid_input answers.length s = false)
    (hgood : parse_usize (trim_ascii good) = some m)
    (h1 : 1 ≤ m) (h2 : m ≤ answers.length) :
    get_user_answer_index answers (bad ++ good :: rest) =
      some (bad.length, m - 1) := by
  induction bad with
  | nil =>
    simp only [List.nil_append, get_user_answer_index, hgood]
    rw [if_pos ⟨h1, h2⟩]
    rfl
  | cons b bs ih =>
    have hb := hbad b (by simp)
    have hbs : ∀ s ∈ bs, valid_input answers.length s = false :=
      fun s hs => hbad s (by simp [hs])
    have ih2 := ih hbs
    simp only [List.cons_append, get_user_answer_index]
    cases hp : parse_usize (trim_ascii b) with
    | none => simp [hp, ih2]
    | some idx =>
      have hno : ¬(idx > 0 ∧ idx ≤ answers.length) := by
        simp only [valid_input, hp] at hb
        simpa using hb
      simp [hp, hno, ih2]

/-- Witness for C7: for a 3-option question, "abc", "0", "99" are rejected
(three invalid feedbacks) and "2" is accepted as zero-based index 1. -/
theorem retry_on_invalid_input_witness :
    get_user_answer_index
      [Answer.CorrectAnswer ("x"), Answer.IncorrectAnswer ("y"),
        Answer.IncorrectAnswer ("z")]
      (["abc", "0", "99"] ++ "2" :: []) = some (3, 1) :=
  retry_on_invalid_input
    [Answer.CorrectAnswer ("x"), Answer.IncorrectAnswer ("y"),
      Answer.IncorrectAnswer ("z")]
    ["abc", "0", "99"] [] ("2") 2 (by decide) (by decide) (by decide) (by decide)

/-- C10: whenever `get_user_answer_index` returns, the returned selection is
a valid zero-based index into the answer sequence being scored. -/
theorem get_user_answer_index_in_bounds (answers : List Answer)
    (inputs : List String) (k i : Nat)
    (h : get_user_answer_index answers inputs = some (k, i)) :
    i < answers.length := by
  induction inputs generalizing k i with
  | nil => simp [get_user_answer_index] at h
  | cons line rest ih =>
    simp only [get_user_answer_index] at h
    cases hp : parse_usize (trim_ascii line) with
    | none =>
      rw [hp] at h
      simp only [Option.map_eq_some'] at h
      obtain ⟨⟨a, b⟩, hrec, heq⟩ := h
      injection heq with hk hi
      exact hi ▸ ih a b hrec
    | some idx =>
      rw [hp] at h
      simp only at h
      by_cases hc : idx > 0 ∧ idx ≤ answers.length
      · rw [if_pos hc] at h
        injection h with h'
        injection h' with hk hi
        omega
      · rw [if_neg hc] at h
        simp only [Option.map_eq_some'] at h
        obtain ⟨⟨a, b⟩, hrec, heq⟩ := h
        injection heq with hk hi
        exact hi ▸ ih a b hrec

/-- Witness for C10 at a concrete input stream. -/
theorem get_user_answer_index_in_bounds_witness :
    1 < ([Answer.CorrectAnswer ("x"), Answer.IncorrectAnswer ("y")] :
      List Answer).length :=
  get_user_answer_index_in_bounds
    [Answer.CorrectAnswer ("x"), Answer.IncorrectAnswer ("y")]
    ["7", "2"] 1 1 (by decide)

/-- C9 counterexample: an extra positional argument is not an input error —
`get_file_name_from_args ["script", "filename.json", "extra"]` succeeds,
exactly as the program's own unit test asserts. -/
theorem extra_argument_not_rejected :
    get_file_name_from_args ["script", "filename.json", "extra"] =
      Except.ok ("filename.json") := rfl

/-- C9 amended: a missing positional argument is an input error, but extra
arguments are not — the first positional argument is used and the rest
ignored. -/
theorem get_file_name_from_args_spec (args : List String) :
    (args.length ≤ 1 →
      get_file_name_from_args args =
        Except.error ("Error: Please input one parameter for json filename")) ∧
    (∀ s, args[1]? = some s → get_file_name_from_args args = Except.ok s) := by
  constructor
  · intro h
    have hnone : args[1]? = none := List.getElem?_eq_none (by omega)
    simp [get_file_name_from_args, hnone]
  · intro s hs
    simp [get_file_name_from_args, hs]

/-- Witness for the amended C9: no positional argument is an error. -/
theorem get_file_name_from_args_spec_witness :
    get_file_name_from_args ["script"] =
      Except.error ("Error: Please input one parameter for json filename") :=
  (get_file_name_from_args_spec ["script"]).1 (by decide)

/-- A processed question updates `results` by exactly one increment, and the
incorrect branch reports the correct answer's 1-based position. -/
theorem process_question_cases (results : Results) (r : Nat → Nat)
    (inputs : List String) (q : Question) (res : Results) (msg : String)
    (h : process_question results r inputs q = some (res, msg)) :
    (res.correct = results.correct + 1 ∧ res.incorrect = results.incorrect) ∨
    (res.incorrect = results.incorrect + 1 ∧ res.correct = results.correct ∧
      ∃ ci, get_correct_answer_index (shuffle r q.answers) = some ci ∧
        msg = "Incorrect! Correct answer was #" ++ toString (ci + 1)) := by
  simp only [process_question] at h
  split at h
  · exact Option.noConfusion h
  next x ci hci =>
    split at h
    · exact Option.noConfusion h
    next y k u hu =>
      split at h
      · injection h with h'
        injection h' with hres hmsg
        subst hres
        left
        exact ⟨rfl, rfl⟩
      · injection h with h'
        injection h' with hres hmsg
        subst hres
        right
        exact ⟨rfl, rfl, ci, hci, hmsg.symm⟩

/-- A completed session run adds exactly one increment per question. -/
theorem run_session_counts (items : List (Question × (Nat → Nat) × List String)) :
    ∀ (results res : Results), run_session results items = some res →
      res.correct + res.incorrect =
        results.correct + results.incorrect + items.length := by
  induction items with
  | nil =>
    intro results res h
    simp only [run_session, Option.some.injEq] at h
    subst h
    simp
  | cons item rest ih =>
    intro results res h
    obtain ⟨q, r, inputs⟩ := item
    simp only [run_session] at h
    split at h
    · exact Option.noConfusion h
    next x results2 msg heq =>
      have hstep := process_question_cases results r inputs q results2 msg heq
      have htail := ih results2 res h
      simp only [List.length_cons]
      rcases hstep with ⟨hc, hi⟩ | ⟨hi, hc, -⟩ <;> omega

/-- C8: when the zero-based user selection equals the resolver's correct
index, exactly the correct counter increments by one (with the "Correct!"
signal); otherwise exactly the incorrect counter increments by one, the
message surfacing the correct answer's 1-based position; and a completed
session over k questions ends with correct + incorrect = k. -/
theorem scoring_per_question :
    (∀ (results : Results) (r : Nat → Nat) (inputs : List String) (q : Question)
        (res : Results) (msg : String) (ci k ui : Nat),
      get_correct_answer_index (shuffle r q.answers) = some ci →
      get_user_answer_index (shuffle r q.answers) inputs = some (k, ui) →
      process_question results r inputs q = some (res, msg) →
        (ui = ci →
          res.correct = results.correct + 1 ∧ res.incorrect = results.incorrect ∧
          msg = "Correct!") ∧
        (ui ≠ ci →
          res.incorrect = results.incorrect + 1 ∧ res.correct = results.correct ∧
          msg = "Incorrect! Correct answer was #" ++ toString (ci + 1))) ∧
    (∀ (items : List (Question × (Nat → Nat) × List String)) (res : Results),
      run_session { correct := 0, incorrect := 0 } items = some res →
        res.correct + res.incorrect = items.length) := by
  constructor
  · intro results r inputs q res msg ci k ui hci hui hp
    simp only [process_question, hci, hui] at hp
    by_cases hcase : ui = ci
    · rw [if_pos hcase] at hp
      injection hp with hp'
      injection hp' with hres hmsg
      subst hres
      exact ⟨fun _ => ⟨rfl, rfl, hmsg.symm⟩, fun hne => absurd hcase hne⟩
    · rw [if_neg hcase] at hp
      injection hp with hp'
      injection hp' with hres hmsg
      subst hres
      exact ⟨fun heq => absurd heq hcase, fun _ => ⟨rfl, rfl, hmsg.symm⟩⟩
  · intro items res h
    have := run_session_counts items { correct := 0, incorrect := 0 } res h
    simpa using this

/-- Witness for C8: with the shuffled answers [IncorrectAnswer "b",
CorrectAnswer "a"], selection 0 differs from the correct index 1, so exactly
the incorrect counter increments and the message names position #2. -/
theorem scoring_per_question_witness :
    ({ correct := 0, incorrect := 1 } : Results).incorrect =
        ({ correct := 0, incorrect := 0 } : Results).incorrect + 1 ∧
      ({ correct := 0, incorrect := 1 } : Results).correct =
        ({ correct := 0, incorrect := 0 } : Results).correct ∧
      ("Incorrect! Correct answer was #2" : String) =
        "Incorrect! Correct answer was #" ++ toString (1 + 1) :=
  (scoring_per_question.1 { correct := 0, incorrect := 0 } (fun _ => 0) ["1"]
    ⟨"q", [Answer.CorrectAnswer ("a"), Answer.IncorrectAnswer ("b")]⟩
    { correct := 0, incorrect := 1 } ("Incorrect! Correct answer was #2")
    1 0 0 (by decide) (by decide) (by decide)).2 (by decide)

end FlashCards
